import Mathlib

/-!
Verification of the Kondo file organizer (`src/main.rs`).

The program reads a TOML config naming three destination directories,
scans a source directory, classifies each regular file by its lowercased
extension into Images / Documents / Audio, and moves it into the matching
destination directory.

Shallow embedding conventions:
- a filesystem path is a list of components (`FPath := List String`);
  `PathBuf::from` on a string splits at the slash character;
- the filesystem is an association list from paths to a flag that is
  `true` for directories and `false` for regular files;
- the outcome of a run distinguishes `ok`, an error returned through
  `std::io::Result` (printed by `main` as an `Error: ` line, exit code 1),
  and a panic raised by `.expect(..)` or `.unwrap()` (Rust aborts with
  exit code 101 and a panic message that is not prefixed by `Error: `);
- a `moved` counter counts successful `fs::rename` calls, one per
  `Moved: ..` line the program prints.
-/

/-- Filesystem paths as component lists, the model of Rust `PathBuf`. -/
abbrev FPath := List String

/-- Splits a character list at every occurrence of `c`, keeping empty groups,
the model of the grouping done by `String::split`. -/
def splitChars (c : Char) : List Char → List (List Char)
  | [] => [[]]
  | a :: as =>
    match splitChars c as with
    | [] => [[a]]
    | g :: gs => if a = c then [] :: g :: gs else (a :: g) :: gs

/-- Model of `PathBuf::from`: a string becomes its slash-separated components. -/
def pathOf (s : String) : FPath :=
  (splitChars '/' s.toList).map String.mk

/-- Model of the filesystem: an association list from a path to `true` when the
path is a directory and `false` when it is a regular file. -/
abbrev FS := List (FPath × Bool)

/-- Membership of a regular file at path `p`. -/
abbrev FS.isFile (fs : FS) (p : FPath) : Prop := (p, false) ∈ fs

/-- Membership of a directory at path `p`. -/
abbrev FS.isDir (fs : FS) (p : FPath) : Prop := (p, true) ∈ fs

/-- Model of `FPath::exists`: the path is present as a file or as a directory. -/
abbrev FS.pathExists (fs : FS) (p : FPath) : Prop :=
  fs.isFile p ∨ fs.isDir p

/-- Removes the regular file at `p`, used by the model of `fs::rename`. -/
def FS.removeFile (fs : FS) (p : FPath) : FS :=
  fs.filter (fun e => decide (e ≠ (p, false)))

/-- Puts a regular file at `p`, overwriting a file already there, used by the
model of `fs::rename`. -/
def FS.insertFile (fs : FS) (p : FPath) : FS :=
  (p, false) :: fs.removeFile p

/-- Run state: the filesystem plus the count of files moved so far (one
successful `fs::rename`, hence one `Moved: ..` output line, per unit). -/
structure St where
  fs : FS
  moved : Nat
deriving DecidableEq

/-- Error kinds surfaced through `std::io::Result` in `organize_files`. -/
inductive RunErr where
  | configUnreadable
  | notFound (p : FPath)
  | notADirectory (p : FPath)
  | createDirFailed (p : FPath)
  | renameFailed (src dst : FPath)
deriving DecidableEq

/-- Joins path components back into a display string. -/
def joinPath : FPath → String
  | [] => ""
  | [a] => a
  | a :: rest => a ++ "/" ++ joinPath rest

/-- Display text of each error, the model of the `Display` instance that
`main` interpolates after the `Error: ` prefix. -/
def RunErr.msg : RunErr → String
  | .configUnreadable => "No such file or directory (os error 2)"
  | .notFound p => "Source directory does not exist: " ++ joinPath p
  | .notADirectory p => "Not a directory (os error 20): " ++ joinPath p
  | .createDirFailed p => "File exists (os error 17): " ++ joinPath p
  | .renameFailed src _ => "No such file or directory (os error 2): " ++ joinPath src

/-- Outcome of `organize_files` as observed by `main`: a clean return, an
`Err` value, or a panic raised by `.expect(..)` / `.unwrap()`. -/
inductive RunOutcome where
  | ok
  | err (e : RunErr)
  | panicked (m : String)
deriving DecidableEq

/-- Model of `fs::create_dir_all` walking the prefixes of the requested
directory from the root: an existing directory is kept as is, a missing one is
created, and a regular file occupying a prefix aborts the walk with the
directories created so far left in place. -/
def createDirAllGo : List FPath → FS → Option RunErr × FS
  | [], fs => (none, fs)
  | q :: qs, fs =>
    if fs.isFile q then (some (.createDirFailed q), fs)
    else if fs.isDir q then createDirAllGo qs fs
    else createDirAllGo qs ((q, true) :: fs)

/-- Model of `fs::create_dir_all(destination)` in `move_file`. -/
def create_dir_all (fs : FS) (d : FPath) : Option RunErr × FS :=
  createDirAllGo ((List.range d.length).map (fun i => d.take (i + 1))) fs

/-- Model of `fs::rename`: fails when the source is not a regular file or the
destination path is an existing directory, otherwise removes the source file
and places a file at the destination, overwriting a file already there. -/
def rename (fs : FS) (src dst : FPath) : Except RunErr FS :=
  if fs.isFile src then
    if fs.isDir dst then .error (.renameFailed src dst)
    else .ok ((fs.removeFile src).insertFile dst)
  else .error (.renameFailed src dst)

/-- Model of `move_file` (src/main.rs lines 35-46): create the destination
directory tree, then rename the source file to the destination directory
joined with the source file name. The `moved` counter records the successful
rename, matching the `Moved: ..` output line. -/
def move_file (st : St) (source destination : FPath) : Option RunErr × St :=
  match create_dir_all st.fs destination with
  | (some e, fs') => (some e, ⟨fs', st.moved⟩)
  | (none, fs') =>
    match source.getLast? with
    | none => (none, ⟨fs', st.moved⟩)
    | some n =>
      match rename fs' source (destination ++ [n]) with
      | .error e => (some e, ⟨fs', st.moved⟩)
      | .ok fs'' => (none, ⟨fs'', st.moved + 1⟩)

/-- Model of Rust `std::path`'s split of a file name at its last dot:
`none` when the name holds no dot, otherwise the pair of the text before and
after the last dot. -/
def rustSplitExt : List Char → Option (List Char × List Char)
  | [] => none
  | c :: cs =>
    match rustSplitExt cs with
    | some (b, a) => some (c :: b, a)
    | none => if c = '.' then some ([], cs) else none

/-- Model of `get_extension` (src/main.rs lines 48-53) applied to a file name:
`FPath::extension` yields nothing when the name has no dot or starts with its
only dot, else the part after the last dot, which the code lowercases. -/
def get_extension (name : String) : Option String :=
  match rustSplitExt name.toList with
  | none => none
  | some ([], _) => none
  | some (_ :: _, ext) => some (String.mk (ext.map Char.toLower))

/-- Extension of the final path component, the model of
`get_extension(&path)` on a full entry path. -/
def path_ext (p : FPath) : Option String :=
  match p.getLast? with
  | none => none
  | some n => get_extension n

/-- Model of `HashMap::insert` on the association-list view of the table:
replaces the value bound to an existing key, else appends the new binding. -/
def hmInsert (m : List (List String × String)) (k : List String) (v : String) :
    List (List String × String) :=
  if m.any (fun e => e.1 == k) then
    m.map (fun e => if e.1 == k then (k, v) else e)
  else m ++ [(k, v)]

/-- Model of `get_file_type_mappings` (src/main.rs lines 20-33): three inserts
into an initially empty table. -/
def get_file_type_mappings : List (List String × String) :=
  hmInsert (hmInsert (hmInsert []
    ["jpg", "jpeg", "png", "gif", "bmp", "tiff", "webp"] "Images")
    ["pdf", "doc", "docx", "txt", "rtf", "odt", "xls", "xlsx", "ppt", "pptx"] "Documents")
    ["mp3", "wav", "ogg", "flac", "aac", "wma"] "Audio"

/-- Model of the classification loop (src/main.rs lines 91-102): the first
table entry whose extension list contains the lowercased extension wins. -/
def classifyIn (tbl : List (List String × String)) (ext : String) : Option String :=
  (tbl.find? (fun m => m.1.any (fun e2 => e2 == ext))).map (fun m => m.2)

/-- Destination directories extracted from the config file. -/
structure DestDirs where
  images : FPath
  documents : FPath
  audio : FPath
deriving DecidableEq

/-- Model of the `match *category` arms (src/main.rs lines 93-98); the
wildcard arm `continue` is unreachable for the three fixed categories and is
modelled as `none`. -/
def destOf (dd : DestDirs) (category : String) : Option FPath :=
  if category = "Images" then some dd.images
  else if category = "Documents" then some dd.documents
  else if category = "Audio" then some dd.audio
  else none

/-- Shallow model of a parsed TOML value tree. -/
inductive Toml where
  | str (s : String)
  | table (kvs : List (String × Toml))
  | other

/-- Model of `toml::Value::get`: key lookup on a table, nothing otherwise. -/
def Toml.get (v : Toml) (k : String) : Option Toml :=
  match v with
  | .table kvs => (kvs.find? (fun kv => kv.1 == k)).map (fun kv => kv.2)
  | _ => none

/-- Model of `toml::Value::as_str`. -/
def Toml.asStr : Toml → Option String
  | .str s => some s
  | _ => none

/-- What reading and parsing the file named by `--config` yields: the read can
fail, the parse can fail, or a value tree is produced. -/
inductive ConfigSource where
  | unreadable
  | unparsable
  | parsed (v : Toml)

/-- Result of the configuration steps of `organize_files` (src/main.rs lines
60-68): the destination directories, an `Err` propagated by `?`, or a panic
from `.expect(..)` / `.unwrap()`. -/
inductive Resolved where
  | ok (dd : DestDirs)
  | err (e : RunErr)
  | panicked (m : String)
deriving DecidableEq

/-- Model of src/main.rs lines 60-68: `fs::read_to_string(..)?` propagates an
`Err`; the parse and every key extraction instead panic via `.expect(..)`,
and a non-string value panics via `.as_str().unwrap()`. Extraction order
matches the source: images, then documents, then audio. -/
def resolveConfig : ConfigSource → Resolved
  | .unreadable => .err .configUnreadable
  | .unparsable => .panicked "Failed to parse the config file"
  | .parsed v =>
    match v.get "directories" with
    | none => .panicked "Missing directories section in config"
    | some dirs =>
      match dirs.get "images" with
      | none => .panicked "Missing images key in config"
      | some iv =>
        match iv.asStr with
        | none => .panicked "called Option::unwrap on a None value"
        | some s1 =>
          match dirs.get "documents" with
          | none => .panicked "Missing documents key in config"
          | some dv =>
            match dv.asStr with
            | none => .panicked "called Option::unwrap on a None value"
            | some s2 =>
              match dirs.get "audio" with
              | none => .panicked "Missing audio key in config"
              | some av =>
                match av.asStr with
                | none => .panicked "called Option::unwrap on a None value"
                | some s3 => .ok ⟨pathOf s1, pathOf s2, pathOf s3⟩

/-- One directory entry yielded by the scan. -/
structure Entry where
  path : FPath
  isDir : Bool
deriving DecidableEq

/-- Entries directly inside directory `d`: paths one component longer than `d`
that extend `d`, in the storage order of the filesystem (the spec leaves the
order unspecified). -/
def childrenOf (fs : FS) (d : FPath) : List Entry :=
  fs.filterMap (fun pb =>
    if pb.1.length = d.length + 1 ∧ pb.1.take d.length = d then
      some ⟨pb.1, pb.2⟩
    else none)

/-- Model of `fs::read_dir`: fails when the path is not a directory, else
yields the entries directly inside it. -/
def read_dir (fs : FS) (d : FPath) : Except RunErr (List Entry) :=
  if fs.isDir d then .ok (childrenOf fs d) else .error (.notADirectory d)

/-- Model of the loop body of src/main.rs lines 84-103 for one entry:
directories are skipped, extensionless files are skipped, files whose
extension matches no table entry are skipped, and a match moves the file to
the category's destination directory. -/
def processEntry (dd : DestDirs) (st : St) (e : Entry) : Option RunErr × St :=
  if e.isDir then (none, st)
  else
    match path_ext e.path with
    | none => (none, st)
    | some ext =>
      match classifyIn get_file_type_mappings ext with
      | none => (none, st)
      | some cat =>
        match destOf dd cat with
        | none => (none, st)
        | some destDir => move_file st e.path destDir

/-- The scan loop of src/main.rs lines 80-104: entries processed in order, the
first error stopping the loop with the state reached so far (no rollback). -/
def runScan (dd : DestDirs) : List Entry → St → Option RunErr × St
  | [], st => (none, st)
  | e :: es, st =>
    match processEntry dd st e with
    | (some er, st') => (some er, st')
    | (none, st') => runScan dd es st'

/-- Inputs of one run: what the config file read yields, the source directory
from `--source`, and the filesystem. -/
structure World where
  configFile : ConfigSource
  sourceDir : FPath
  fs : FS

/-- Model of `organize_files` (src/main.rs lines 55-107): resolve the config,
check that the source path exists, open the directory, and scan. The returned
state is the filesystem and move count when the run stopped, normally or not. -/
def organize_files (w : World) : RunOutcome × St :=
  let st0 : St := ⟨w.fs, 0⟩
  match resolveConfig w.configFile with
  | .err e => (.err e, st0)
  | .panicked m => (.panicked m, st0)
  | .ok dd =>
    if w.fs.pathExists w.sourceDir then
      match read_dir w.fs w.sourceDir with
      | .error e => (.err e, st0)
      | .ok es =>
        match runScan dd es st0 with
        | (some e, st') => (.err e, st')
        | (none, st') => (.ok, st')
    else (.err (.notFound w.sourceDir), st0)

/-- Observable end of the process: what `main` leaves on the error stream and
the exit code. -/
structure ProcResult where
  stderrLines : List String
  exitCode : Nat
deriving DecidableEq

/-- Model of `main` (src/main.rs lines 109-116): an `Err` from
`organize_files` prints one `Error: `-prefixed line and exits with code 1; a
clean return exits with code 0; a panic makes the Rust runtime print its own
two-line report and abort the process with exit code 101. -/
def mainRun (w : World) : ProcResult :=
  match (organize_files w).1 with
  | .ok => ⟨[], 0⟩
  | .err e => ⟨["Error: " ++ e.msg], 1⟩
  | .panicked m =>
      ⟨["thread main panicked at src/main.rs: " ++ m,
        "note: run with RUST_BACKTRACE=1 environment variable to display a backtrace"], 101⟩

/-- Whether `pre` is an initial segment of `s`, used to state which output
lines carry the `Error: ` prefix. -/
def strStarts (pre s : String) : Bool :=
  pre.toList.isPrefixOf s.toList

/-- A file name the scan leaves alone: no extension, or an extension matching
no category. -/
def skipName (n : String) : Bool :=
  match get_extension n with
  | none => true
  | some ext => (classifyIn get_file_type_mappings ext).isNone

/-! Basic lemmas about the filesystem operations. -/

theorem isFile_removeFile (fs : FS) (p q : FPath) :
    (fs.removeFile p).isFile q ↔ fs.isFile q ∧ q ≠ p := by
  simp [FS.removeFile, FS.isFile, List.mem_filter]

theorem isDir_removeFile (fs : FS) (p q : FPath) :
    (fs.removeFile p).isDir q ↔ fs.isDir q := by
  simp [FS.removeFile, FS.isDir, List.mem_filter]

theorem isFile_insertFile (fs : FS) (p q : FPath) :
    (fs.insertFile p).isFile q ↔ q = p ∨ (fs.isFile q ∧ q ≠ p) := by
  simp only [FS.insertFile, FS.isFile, List.mem_cons, Prod.mk.injEq, and_true]
  rw [show ((q, false) ∈ fs.removeFile p) = (fs.removeFile p).isFile q from rfl,
    isFile_removeFile]

theorem isDir_insertFile (fs : FS) (p q : FPath) :
    (fs.insertFile p).isDir q ↔ fs.isDir q := by
  simp only [FS.insertFile, FS.isDir, List.mem_cons]
  rw [show ((q, true) ∈ fs.removeFile p) = (fs.removeFile p).isDir q from rfl,
    isDir_removeFile]
  simp

theorem isFile_createDirAllGo (qs : List FPath) (fs : FS) (q : FPath) :
    ((createDirAllGo qs fs).2).isFile q ↔ fs.isFile q := by
  induction qs generalizing fs with
  | nil => simp [createDirAllGo]
  | cons a as ih =>
    simp only [createDirAllGo]
    split
    · simp
    · split
      · exact ih fs
      · rw [ih]
        simp [FS.isFile]

theorem isDir_createDirAllGo (qs : List FPath) (fs : FS) (q : FPath)
    (h : fs.isDir q) : ((createDirAllGo qs fs).2).isDir q := by
  induction qs generalizing fs with
  | nil => simpa [createDirAllGo] using h
  | cons a as ih =>
    simp only [createDirAllGo]
    split
    · exact h
    · split
      · exact ih fs h
      · refine ih _ ?_
        simp only [FS.isDir, List.mem_cons]
        exact Or.inr h

theorem isFile_create_dir_all (fs : FS) (d q : FPath) :
    ((create_dir_all fs d).2).isFile q ↔ fs.isFile q :=
  isFile_createDirAllGo _ fs q

theorem isDir_create_dir_all (fs : FS) (d q : FPath) (h : fs.isDir q) :
    ((create_dir_all fs d).2).isDir q :=
  isDir_createDirAllGo _ fs q h

/-! Case analysis of one `move_file` call: either the state is the one left by
`create_dir_all` (creation failed, no file name, or the rename failed), or the
rename succeeded. -/

theorem move_file_cases (st : St) (src dest : FPath) (r : Option RunErr) (st' : St)
    (h : move_file st src dest = (r, st')) :
    (st'.fs = (create_dir_all st.fs dest).2 ∧ st'.moved = st.moved ∧
      (src.getLast? = none ∨ ∃ e, r = some e)) ∨
    (r = none ∧ st.fs.isFile src ∧ ∃ n, src.getLast? = some n ∧
      st'.fs = (((create_dir_all st.fs dest).2).removeFile src).insertFile (dest ++ [n]) ∧
      st'.moved = st.moved + 1) := by
  unfold move_file at h
  split at h
  · rename_i e fs' heq
    injection h with h1 h2
    subst h1
    left
    rw [heq]
    cases h2
    exact ⟨rfl, rfl, Or.inr ⟨e, rfl⟩⟩
  · rename_i fs' heq
    split at h
    · rename_i hg
      injection h with h1 h2
      subst h1
      left
      rw [heq]
      cases h2
      exact ⟨rfl, rfl, Or.inl hg⟩
    · rename_i n hg
      split at h
      · rename_i e her
        injection h with h1 h2
        subst h1
        left
        rw [heq]
        cases h2
        exact ⟨rfl, rfl, Or.inr ⟨e, rfl⟩⟩
      · rename_i fs'' hok
        injection h with h1 h2
        subst h1
        right
        unfold rename at hok
        split at hok
        · rename_i hsrc
          split at hok
          · cases hok
          · injection hok with h3
            refine ⟨rfl, ?_, n, hg, ?_, ?_⟩
            · rw [← isFile_create_dir_all st.fs dest src, heq]
              exact hsrc
            · rw [← h2, ← h3, heq]
            · rw [← h2]
        · cases hok

/-! Lemmas about paths and the extension of an entry. -/

theorem append_singleton_inj {l1 l2 : List String} {a b : String}
    (h : l1 ++ [a] = l2 ++ [b]) : l1 = l2 ∧ a = b := by
  have := List.append_inj' h rfl
  exact ⟨this.1, by simpa using this.2⟩

theorem path_ext_append (d : FPath) (n : String) :
    path_ext (d ++ [n]) = get_extension n := by
  simp [path_ext, List.getLast?_concat]

/-! Lemmas about the classification table. -/

theorem any_beq_iff_mem (l : List String) (x : String) :
    (l.any (fun e2 => e2 == x)) = true ↔ x ∈ l := by
  simp only [List.any_eq_true, beq_iff_eq]
  constructor
  · rintro ⟨y, hy, rfl⟩
    exact hy
  · intro h
    exact ⟨x, h, rfl⟩

theorem table_pairwise_disjoint :
    get_file_type_mappings.Pairwise (fun a b => ∀ x, x ∈ a.1 → x ∉ b.1) := by
  decide

theorem find_first_of_disjoint {tbl : List (List String × String)}
    (hdisj : tbl.Pairwise (fun a b => ∀ x, x ∈ a.1 → x ∉ b.1))
    {exts : List String} {cat ext : String}
    (hm : (exts, cat) ∈ tbl) (he : ext ∈ exts) :
    tbl.find? (fun m => m.1.any (fun e2 => e2 == ext)) = some (exts, cat) := by
  induction tbl with
  | nil => cases hm
  | cons hd tl ih =>
    rcases List.pairwise_cons.mp hdisj with ⟨hdh, hdt⟩
    rcases List.mem_cons.mp hm with heq | hmt
    · subst heq
      rw [List.find?_cons_of_pos]
      exact (any_beq_iff_mem _ _).mpr he
    · have hno : (hd.1.any (fun e2 => e2 == ext)) = false := by
        rw [Bool.eq_false_iff]
        intro hyes
        exact hdh _ hmt ext ((any_beq_iff_mem _ _).mp hyes) he
      rw [List.find?_cons_of_neg _ (by simp [hno]), ih hdt hmt]

theorem classify_of_mem {exts : List String} {cat ext : String}
    (hm : (exts, cat) ∈ get_file_type_mappings) (he : ext ∈ exts) :
    classifyIn get_file_type_mappings ext = some cat := by
  unfold classifyIn
  rw [find_first_of_disjoint table_pairwise_disjoint hm he]
  rfl

theorem table_snd_cases :
    ∀ m ∈ get_file_type_mappings, m.2 = "Images" ∨ m.2 = "Documents" ∨ m.2 = "Audio" := by
  decide

theorem classify_mem_table {ext cat : String}
    (h : classifyIn get_file_type_mappings ext = some cat) :
    cat = "Images" ∨ cat = "Documents" ∨ cat = "Audio" := by
  unfold classifyIn at h
  rcases ho : List.find? (fun m => m.1.any (fun e2 => e2 == ext)) get_file_type_mappings with
    _ | m
  · rw [ho] at h
    cases h
  · rw [ho, Option.map_some'] at h
    injection h with h1
    subst h1
    exact table_snd_cases m (List.mem_of_find?_eq_some ho)

theorem destOf_range {dd : DestDirs} {cat : String} {p : FPath}
    (h : destOf dd cat = some p) :
    p = dd.images ∨ p = dd.documents ∨ p = dd.audio := by
  unfold destOf at h
  split at h
  · injection h with h1; exact Or.inl h1.symm
  · split at h
    · injection h with h1; exact Or.inr (Or.inl h1.symm)
    · split at h
      · injection h with h1; exact Or.inr (Or.inr h1.symm)
      · cases h

theorem destOf_isSome (dd : DestDirs) {cat : String}
    (h : cat = "Images" ∨ cat = "Documents" ∨ cat = "Audio") :
    ∃ p, destOf dd cat = some p := by
  rcases h with h | h | h <;> subst h <;> simp [destOf]

/-! Behavior of `processEntry` on skipped entries. -/

theorem processEntry_skip_dir (dd : DestDirs) (st : St) (p : FPath) :
    processEntry dd st ⟨p, true⟩ = (none, st) := by
  simp [processEntry]

theorem processEntry_skipName (dd : DestDirs) (st : St) (d : FPath) (n : String)
    (h : skipName n = true) :
    processEntry dd st ⟨d ++ [n], false⟩ = (none, st) := by
  unfold skipName at h
  unfold processEntry
  simp only [Bool.false_eq_true, if_false, path_ext_append]
  split at h
  · rfl
  · rename_i ext hext
    rw [Option.isNone_iff_eq_none] at h
    rw [h]

/-! Structural case analysis of `processEntry`. -/

theorem processEntry_cases (dd : DestDirs) (st : St) (e : Entry) (r : Option RunErr) (st' : St)
    (h : processEntry dd st e = (r, st')) :
    (r = none ∧ st' = st) ∨
    (e.isDir = false ∧ ∃ destDir,
      (destDir = dd.images ∨ destDir = dd.documents ∨ destDir = dd.audio) ∧
      move_file st e.path destDir = (r, st')) := by
  unfold processEntry at h
  split at h
  · injection h with h1 h2
    exact Or.inl ⟨h1.symm, h2.symm⟩
  · rename_i hdir
    rw [Bool.not_eq_true] at hdir
    split at h
    · injection h with h1 h2
      exact Or.inl ⟨h1.symm, h2.symm⟩
    · split at h
      · injection h with h1 h2
        exact Or.inl ⟨h1.symm, h2.symm⟩
      · split at h
        · injection h with h1 h2
          exact Or.inl ⟨h1.symm, h2.symm⟩
        · rename_i destDir hdest
          exact Or.inr ⟨hdir, destDir, destOf_range hdest, h⟩

theorem processEntry_new_file (dd : DestDirs) (st : St) (e : Entry) (r : Option RunErr)
    (st' : St) (q : FPath) (h : processEntry dd st e = (r, st')) (hq : st'.fs.isFile q) :
    st.fs.isFile q ∨
    (st.fs.isFile e.path ∧ ∃ destDir n,
      (destDir = dd.images ∨ destDir = dd.documents ∨ destDir = dd.audio) ∧
      e.path.getLast? = some n ∧ q = destDir ++ [n]) := by
  rcases processEntry_cases dd st e r st' h with ⟨_, rfl⟩ | ⟨_, destDir, hdd, hmv⟩
  · exact Or.inl hq
  · rcases move_file_cases st e.path destDir r st' hmv with
      ⟨hfs, _, _⟩ | ⟨_, hsrc, n, hn, hfs, _⟩
    · rw [hfs, isFile_create_dir_all] at hq
      exact Or.inl hq
    · rw [hfs, isFile_insertFile] at hq
      rcases hq with rfl | ⟨hq, _⟩
      · exact Or.inr ⟨hsrc, destDir, n, hdd, hn, rfl⟩
      · rw [isFile_removeFile, isFile_create_dir_all] at hq
        exact Or.inl hq.1

theorem processEntry_isFile_pres (dd : DestDirs) (st : St) (e : Entry) (r : Option RunErr)
    (st' : St) (q : FPath) (h : processEntry dd st e = (r, st')) (hq : st.fs.isFile q)
    (hne : q ≠ e.path) : st'.fs.isFile q := by
  rcases processEntry_cases dd st e r st' h with ⟨_, rfl⟩ | ⟨_, destDir, hdd, hmv⟩
  · exact hq
  · rcases move_file_cases st e.path destDir r st' hmv with
      ⟨hfs, _, _⟩ | ⟨_, _, n, hn, hfs, _⟩
    · rw [hfs, isFile_create_dir_all]
      exact hq
    · rw [hfs, isFile_insertFile]
      by_cases hq2 : q = destDir ++ [n]
      · exact Or.inl hq2
      · refine Or.inr ⟨?_, hq2⟩
        rw [isFile_removeFile, isFile_create_dir_all]
        exact ⟨hq, hne⟩

theorem processEntry_isDir_pres (dd : DestDirs) (st : St) (e : Entry) (r : Option RunErr)
    (st' : St) (q : FPath) (h : processEntry dd st e = (r, st')) (hd : st.fs.isDir q) :
    st'.fs.isDir q := by
  rcases processEntry_cases dd st e r st' h with ⟨_, rfl⟩ | ⟨_, destDir, hdd, hmv⟩
  · exact hd
  · rcases move_file_cases st e.path destDir r st' hmv with
      ⟨hfs, _, _⟩ | ⟨_, _, n, hn, hfs, _⟩
    · rw [hfs]
      exact isDir_create_dir_all _ _ _ hd
    · rw [hfs, isDir_insertFile, isDir_removeFile]
      exact isDir_create_dir_all _ _ _ hd

theorem processEntry_none_isFile_self (dd : DestDirs) (st : St) (d : FPath) (n : String)
    (st' : St)
    (hne1 : dd.images ≠ d) (hne2 : dd.documents ≠ d) (hne3 : dd.audio ≠ d)
    (h : processEntry dd st ⟨d ++ [n], false⟩ = (none, st'))
    (hf : st'.fs.isFile (d ++ [n])) : skipName n = true ∧ st' = st := by
  by_cases hs : skipName n = true
  · refine ⟨hs, ?_⟩
    rw [processEntry_skipName dd st d n hs] at h
    injection h with _ h2
    exact h2.symm
  · exfalso
    unfold skipName at hs
    unfold processEntry at h
    simp only [Bool.false_eq_true, if_false, path_ext_append] at h
    split at h
    · rename_i hext
      rw [hext] at hs
      simp at hs
    · rename_i ext hext
      rw [hext] at hs
      simp only at hs
      split at h
      · rename_i hcat
        rw [hcat] at hs
        simp at hs
      · rename_i cat hcat
        split at h
        · rename_i hdest
          rcases destOf_isSome dd (classify_mem_table hcat) with ⟨p, hp⟩
          rw [hp] at hdest
          cases hdest
        · rename_i destDir hdest
          rcases move_file_cases st (d ++ [n]) destDir none st' h with
            ⟨_, _, hbad | ⟨e, hbad⟩⟩ | ⟨_, _, m, hm, hfs, _⟩
          · rw [List.getLast?_concat] at hbad
            cases hbad
          · cases hbad
          · rw [List.getLast?_concat] at hm
            injection hm with hm
            subst hm
            rw [hfs, isFile_insertFile] at hf
            rcases hf with hf | ⟨hf, _⟩
            · rcases append_singleton_inj hf.symm with ⟨hdq, _⟩
              rcases destOf_range hdest with rfl | rfl | rfl
              · exact hne1 hdq
              · exact hne2 hdq
              · exact hne3 hdq
            · rw [isFile_removeFile] at hf
              exact hf.2 rfl

/-! Lemmas about the scan loop. -/

theorem runScan_inv (dd : DestDirs) (es : List Entry) (P : St → Prop)
    (hstep : ∀ e ∈ es, ∀ st r st', P st → processEntry dd st e = (r, st') → P st') :
    ∀ st r stF, runScan dd es st = (r, stF) → P st → P stF := by
  induction es with
  | nil =>
    intro st r stF h hP
    unfold runScan at h
    injection h with _ h2
    rw [← h2]
    exact hP
  | cons e es ih =>
    intro st r stF h hP
    unfold runScan at h
    rcases hp : processEntry dd st e with ⟨rp, stp⟩
    rw [hp] at h
    have hPp : P stp := hstep e (List.mem_cons_self e es) st rp stp hP hp
    match rp with
    | some er =>
      simp only at h
      injection h with _ h2
      rw [← h2]
      exact hPp
    | none =>
      simp only at h
      exact ih (fun e' he' => hstep e' (List.mem_cons_of_mem e he')) stp r stF h hPp

theorem runScan_append_ok (dd : DestDirs) (l1 l2 : List Entry) (st stF : St)
    (h : runScan dd (l1 ++ l2) st = (none, stF)) :
    ∃ stm, runScan dd l1 st = (none, stm) ∧ runScan dd l2 stm = (none, stF) := by
  induction l1 generalizing st with
  | nil =>
    exact ⟨st, rfl, h⟩
  | cons e es ih =>
    rw [List.cons_append] at h
    rcases hp : processEntry dd st e with ⟨rp, stp⟩
    unfold runScan at h
    rw [hp] at h
    match rp with
    | some er =>
      simp only at h
      injection h with h1
      cases h1
    | none =>
      simp only at h
      rcases ih stp h with ⟨stm, h1, h2⟩
      refine ⟨stm, ?_, h2⟩
      unfold runScan
      rw [hp]
      exact h1

theorem runScan_skips (dd : DestDirs) (es : List Entry)
    (h : ∀ e ∈ es, ∀ st, processEntry dd st e = (none, st)) (st : St) :
    runScan dd es st = (none, st) := by
  induction es with
  | nil => rfl
  | cons e es ih =>
    unfold runScan
    rw [h e (List.mem_cons_self e es) st]
    exact ih (fun e' he' => h e' (List.mem_cons_of_mem e he'))

/-! Lemmas about directory listings. -/

theorem mem_childrenOf {fs : FS} {d : FPath} {e : Entry} :
    e ∈ childrenOf fs d ↔
    (e.path, e.isDir) ∈ fs ∧ e.path.length = d.length + 1 ∧ e.path.take d.length = d := by
  unfold childrenOf
  rw [List.mem_filterMap]
  constructor
  · rintro ⟨⟨p, b⟩, hmem, hif⟩
    split at hif
    · rename_i hcond
      injection hif with hif
      rw [← hif]
      exact ⟨hmem, hcond⟩
    · cases hif
  · rintro ⟨hmem, hcond⟩
    refine ⟨(e.path, e.isDir), hmem, ?_⟩
    rw [if_pos hcond]

theorem childrenOf_shape {fs : FS} {d : FPath} {e : Entry}
    (h : e ∈ childrenOf fs d) : ∃ n, e.path = d ++ [n] := by
  rcases mem_childrenOf.mp h with ⟨_, hlen, htake⟩
  rcases hdrop : e.path.drop d.length with _ | ⟨n, rest⟩
  · have := List.length_drop d.length e.path
    rw [hdrop, hlen] at this
    simp at this
  · have hlen2 : (e.path.drop d.length).length = 1 := by
      rw [List.length_drop, hlen]
      simp
    rw [hdrop] at hlen2
    simp only [List.length_cons, Nat.add_left_eq_self, List.length_eq_zero] at hlen2
    subst hlen2
    refine ⟨n, ?_⟩
    conv_lhs => rw [← List.take_append_drop d.length e.path]
    rw [htake, hdrop]

theorem mem_childrenOf_isFile {fs : FS} {d : FPath} {n : String}
    (h : fs.isFile (d ++ [n])) : (⟨d ++ [n], false⟩ : Entry) ∈ childrenOf fs d := by
  rw [mem_childrenOf]
  refine ⟨h, ?_, ?_⟩
  · simp
  · simp [List.take_left]

/-! Destructuring `organize_files`. -/

theorem organize_outcome_cases (w : World) (dd : DestDirs)
    (hres : resolveConfig w.configFile = Resolved.ok dd) :
    (¬ w.fs.pathExists w.sourceDir ∧
      organize_files w = (.err (.notFound w.sourceDir), ⟨w.fs, 0⟩)) ∨
    (w.fs.pathExists w.sourceDir ∧ ¬ w.fs.isDir w.sourceDir ∧
      organize_files w = (.err (.notADirectory w.sourceDir), ⟨w.fs, 0⟩)) ∨
    (w.fs.isDir w.sourceDir ∧ ∃ r st',
      runScan dd (childrenOf w.fs w.sourceDir) ⟨w.fs, 0⟩ = (r, st') ∧
      organize_files w =
        ((match r with | some e => RunOutcome.err e | none => RunOutcome.ok), st')) := by
  unfold organize_files
  rw [hres]
  simp only
  by_cases hex : w.fs.pathExists w.sourceDir
  · rw [if_pos hex]
    unfold read_dir
    by_cases hdir : w.fs.isDir w.sourceDir
    · rw [if_pos hdir]
      simp only
      right; right
      refine ⟨hdir, ?_⟩
      rcases hscan : runScan dd (childrenOf w.fs w.sourceDir) ⟨w.fs, 0⟩ with ⟨rs, sts⟩
      refine ⟨rs, sts, rfl, ?_⟩
      match rs with
      | some er => rfl
      | none => rfl
    · rw [if_neg hdir]
      simp only
      right; left
      refine ⟨hex, hdir, ?_⟩
      trivial
  · rw [if_neg hex]
    exact Or.inl ⟨hex, rfl⟩

theorem organize_ok_destruct (w : World) (dd : DestDirs)
    (hres : resolveConfig w.configFile = Resolved.ok dd)
    (hok : (organize_files w).1 = RunOutcome.ok) :
    w.fs.isDir w.sourceDir ∧
    runScan dd (childrenOf w.fs w.sourceDir) ⟨w.fs, 0⟩ = (none, (organize_files w).2) := by
  rcases organize_outcome_cases w dd hres with
    ⟨_, heq⟩ | ⟨_, _, heq⟩ | ⟨hdir, r, st', hscan, heq⟩
  · rw [heq] at hok
    cases hok
  · rw [heq] at hok
    cases hok
  · match r with
    | some er =>
      rw [heq] at hok
      cases hok
    | none =>
      refine ⟨hdir, ?_⟩
      rw [heq]
      exact hscan

theorem organize_of_scan (w : World) (dd : DestDirs) (st1 : St)
    (hres : resolveConfig w.configFile = Resolved.ok dd)
    (hdir : w.fs.isDir w.sourceDir)
    (hscan : runScan dd (childrenOf w.fs w.sourceDir) ⟨w.fs, 0⟩ = (none, st1)) :
    organize_files w = (RunOutcome.ok, st1) := by
  rcases organize_outcome_cases w dd hres with
    ⟨hex, _⟩ | ⟨_, hd, _⟩ | ⟨_, r, st', hscan', heq⟩
  · exact absurd (Or.inr hdir) hex
  · exact absurd hdir hd
  · rw [hscan'] at hscan
    injection hscan with h1 h2
    subst h2
    subst h1
    rw [heq]

theorem organize_fs_inv (w : World) (P : FS → Prop)
    (hstep : ∀ dd, resolveConfig w.configFile = Resolved.ok dd →
      ∀ e ∈ childrenOf w.fs w.sourceDir, ∀ st r st',
        P st.fs → processEntry dd st e = (r, st') → P st'.fs)
    (h0 : P w.fs) : P (organize_files w).2.fs := by
  rcases hres : resolveConfig w.configFile with dd | e | m
  · rcases organize_outcome_cases w dd hres with
      ⟨_, heq⟩ | ⟨_, _, heq⟩ | ⟨_, r, st', hscan, heq⟩
    · rw [heq]
      exact h0
    · rw [heq]
      exact h0
    · rw [heq]
      exact runScan_inv dd (childrenOf w.fs w.sourceDir) (fun st => P st.fs)
        (fun e he st r st' => hstep dd hres e he st r st') ⟨w.fs, 0⟩ r st' hscan h0
  · unfold organize_files
    rw [hres]
    exact h0
  · unfold organize_files
    rw [hres]
    exact h0

/-! First-match lookup is stable under reordering when at most one entry matches. -/

theorem countP_le_one_of_disjoint (tbl : List (List String × String))
    (hdisj : tbl.Pairwise (fun a b => ∀ x, x ∈ a.1 → x ∉ b.1)) (ext : String) :
    tbl.countP (fun m => m.1.any (fun e2 => e2 == ext)) ≤ 1 := by
  induction tbl with
  | nil => simp
  | cons hd tl ih =>
    rcases List.pairwise_cons.mp hdisj with ⟨hdh, hdt⟩
    by_cases hp : (hd.1.any (fun e2 => e2 == ext)) = true
    · rw [List.countP_cons_of_pos (fun m => m.1.any (fun e2 => e2 == ext)) tl hp]
      have hz : tl.countP (fun m => m.1.any (fun e2 => e2 == ext)) = 0 := by
        rw [List.countP_eq_zero]
        intro m hm hmp
        exact hdh m hm ext ((any_beq_iff_mem _ _).mp hp) ((any_beq_iff_mem _ _).mp hmp)
      rw [hz]
    · rw [List.countP_cons_of_neg (fun m => m.1.any (fun e2 => e2 == ext)) tl (by simp [hp])]
      exact ih hdt

theorem find_eq_of_perm_of_le_one {α : Type} (p : α → Bool) {l l' : List α}
    (hp : l.Perm l') : l.countP p ≤ 1 → l.find? p = l'.find? p := by
  induction hp with
  | nil => intro; rfl
  | cons x hperm ih =>
    intro hc
    by_cases hx : p x = true
    · rw [List.find?_cons_of_pos _ hx, List.find?_cons_of_pos _ hx]
    · rw [List.find?_cons_of_neg _ hx, List.find?_cons_of_neg _ hx]
      refine ih ?_
      rw [List.countP_cons_of_neg p _ hx] at hc
      exact hc
  | swap x y t =>
    intro hc
    by_cases hx : p x = true <;> by_cases hy : p y = true
    · exfalso
      rw [List.countP_cons_of_pos p _ hy, List.countP_cons_of_pos p _ hx] at hc
      omega
    · rw [List.find?_cons_of_neg _ hy, List.find?_cons_of_pos _ hx,
        List.find?_cons_of_pos _ hx]
    · rw [List.find?_cons_of_pos _ hy, List.find?_cons_of_neg _ hx,
        List.find?_cons_of_pos _ hy]
    · rw [List.find?_cons_of_neg _ hy, List.find?_cons_of_neg _ hx,
        List.find?_cons_of_neg _ hx, List.find?_cons_of_neg _ hy]
  | trans h1 h2 ih1 ih2 =>
    intro hc
    rw [ih1 hc, ih2 (by rw [← h1.countP_eq]; exact hc)]

/-! The extension extractor on names with no dot. -/

theorem rustSplitExt_none_of_no_dot (cs : List Char) (h : '.' ∉ cs) :
    rustSplitExt cs = none := by
  induction cs with
  | nil => rfl
  | cons c cs ih =>
    rw [List.mem_cons, not_or] at h
    unfold rustSplitExt
    rw [ih h.2]
    simp only
    rw [if_neg]
    intro hc
    exact h.1 hc.symm

/-! Configuration failure conditions and their effect on a run. -/

/-- Conditions of the spec under which configuration resolution fails: config
file unreadable, unparsable, missing `directories` section, missing `images`,
`documents` or `audio` key, or one of those keys bound to a non-string. -/
def configFails (cs : ConfigSource) : Prop :=
  cs = .unreadable ∨ cs = .unparsable ∨
  ∃ v, cs = .parsed v ∧
    (v.get "directories" = none ∨
     ∃ dirs, v.get "directories" = some dirs ∧
       (dirs.get "images" = none ∨ dirs.get "documents" = none ∨ dirs.get "audio" = none ∨
        (∃ x, dirs.get "images" = some x ∧ x.asStr = none) ∨
        (∃ x, dirs.get "documents" = some x ∧ x.asStr = none) ∨
        (∃ x, dirs.get "audio" = some x ∧ x.asStr = none)))

/-- A resolution result that is not a success. -/
def Resolved.failed : Resolved → Prop
  | .ok _ => False
  | .err _ => True
  | .panicked _ => True

theorem resolveConfig_failed_of {cs : ConfigSource} (h : configFails cs) :
    (resolveConfig cs).failed := by
  rcases h with rfl | rfl | ⟨v, rfl, hv⟩
  · trivial
  · trivial
  · unfold resolveConfig
    simp only
    split
    · trivial
    rename_i dirs hdirs
    split
    · trivial
    rename_i iv himg
    split
    · trivial
    rename_i s1 hiv
    split
    · trivial
    rename_i dv hdoc
    split
    · trivial
    rename_i s2 hdv
    split
    · trivial
    rename_i av haud
    split
    · trivial
    rename_i s3 hav
    exfalso
    rcases hv with hnone | ⟨dirs2, hd2, hrest⟩
    · rw [hdirs] at hnone
      cases hnone
    · rw [hdirs] at hd2
      injection hd2 with hd2
      subst hd2
      rcases hrest with h | h | h | ⟨x, hx, hxs⟩ | ⟨x, hx, hxs⟩ | ⟨x, hx, hxs⟩
      · rw [himg] at h
        cases h
      · rw [hdoc] at h
        cases h
      · rw [haud] at h
        cases h
      · rw [himg] at hx
        injection hx with hx
        subst hx
        rw [hiv] at hxs
        cases hxs
      · rw [hdoc] at hx
        injection hx with hx
        subst hx
        rw [hdv] at hxs
        cases hxs
      · rw [haud] at hx
        injection hx with hx
        subst hx
        rw [hav] at hxs
        cases hxs

theorem organize_aborts_of_resolve_failed (w : World)
    (h : (resolveConfig w.configFile).failed) :
    (organize_files w).1 ≠ RunOutcome.ok ∧ (organize_files w).2 = ⟨w.fs, 0⟩ := by
  unfold organize_files
  rcases hres : resolveConfig w.configFile with dd | e | m
  · rw [hres] at h
    exact h.elim
  · simp only
    refine ⟨?_, by trivial⟩
    intro hc
    cases hc
  · simp only
    refine ⟨?_, by trivial⟩
    intro hc
    cases hc

/-! Concrete inputs used by the witnesses and counterexamples below. -/

/-- Parsed config binding the three destination directories under `out/`. -/
def sampleToml : Toml :=
  .table [("directories", .table
    [("images", .str "out/Images"),
     ("documents", .str "out/Documents"),
     ("audio", .str "out/Audio")])]

/-- Source directory holding one file per category, an unmatched archive, an
extensionless file, a dot file, and a subdirectory with an extension-like
name holding a file. -/
def sampleFS : FS :=
  [ (["src"], true),
    (["src", "photo.JPG"], false),
    (["src", "notes.txt"], false),
    (["src", "song.mp3"], false),
    (["src", "archive.zip"], false),
    (["src", "README"], false),
    (["src", ".gitignore"], false),
    (["src", "sub.jpg"], true),
    (["src", "sub.jpg", "inner.png"], false) ]

def sampleWorld : World := ⟨.parsed sampleToml, ["src"], sampleFS⟩

/-- Destination directories the sample config resolves to. -/
def sampleDD : DestDirs := ⟨["out", "Images"], ["out", "Documents"], ["out", "Audio"]⟩

/-- Minimal config used by the small worlds. -/
def tinyToml : Toml :=
  .table [("directories", .table
    [("images", .str "i"), ("documents", .str "d"), ("audio", .str "au")])]

def tinyDD : DestDirs := ⟨["i"], ["d"], ["au"]⟩

/-- One audio file in the source directory. -/
def tinyWorld : World := ⟨.parsed tinyToml, ["s"], [(["s"], true), (["s", "a.mp3"], false)]⟩

/-- Config whose images directory is the source directory itself. -/
def selfToml : Toml :=
  .table [("directories", .table
    [("images", .str "src"), ("documents", .str "d"), ("audio", .str "au")])]

def selfWorld : World := ⟨.parsed selfToml, ["src"], [(["src"], true), (["src", "photo.jpg"], false)]⟩

/-- World whose source directory does not exist at all. -/
def noSrcWorld : World := ⟨.parsed tinyToml, ["s"], []⟩

/-- World whose source path exists but as a regular file. -/
def fileSrcWorld : World := ⟨.parsed tinyToml, ["s"], [(["s"], false)]⟩

/-- World whose config file does not parse. -/
def unparsableWorld : World := ⟨.unparsable, ["s"], [(["s"], true), (["s", "a.mp3"], false)]⟩

/-- Config missing the `audio` key. -/
def missingAudioToml : Toml :=
  .table [("directories", .table
    [("images", .str "i"), ("documents", .str "d")])]

def missingAudioWorld : World :=
  ⟨.parsed missingAudioToml, ["s"], [(["s"], true), (["s", "a.mp3"], false)]⟩

/-! Claim theorems. -/

/-- C8: the extension table built at startup holds exactly three entries,
Images from jpg/jpeg/png/gif/bmp/tiff/webp, Documents from
pdf/doc/docx/txt/rtf/odt/xls/xlsx/ppt/pptx, and Audio from
mp3/wav/ogg/flac/aac/wma; its construction is a total function of no inputs,
so it cannot fail. -/
theorem extension_table_exact :
    get_file_type_mappings =
      [(["jpg", "jpeg", "png", "gif", "bmp", "tiff", "webp"], "Images"),
       (["pdf", "doc", "docx", "txt", "rtf", "odt", "xls", "xlsx", "ppt", "pptx"], "Documents"),
       (["mp3", "wav", "ogg", "flac", "aac", "wma"], "Audio")] ∧
    get_file_type_mappings.length = 3 := by
  constructor
  · decide
  · decide

/-- C9: the three extension sets are pairwise disjoint, so the first-match
classification gives the same result over any reordering of the table's
entries, making classification independent of the hash-map iteration order. -/
theorem classifier_order_independent :
    get_file_type_mappings.Pairwise (fun a b => ∀ x, x ∈ a.1 → x ∉ b.1) ∧
    ∀ tbl, get_file_type_mappings.Perm tbl →
      ∀ ext, classifyIn tbl ext = classifyIn get_file_type_mappings ext := by
  refine ⟨table_pairwise_disjoint, ?_⟩
  intro tbl hperm ext
  unfold classifyIn
  rw [find_eq_of_perm_of_le_one (fun m => m.1.any (fun e2 => e2 == ext)) hperm
    (countP_le_one_of_disjoint _ table_pairwise_disjoint ext)]

/-- Witness for C9 at a concrete reordering: classifying `mp3` through the
reversed table gives the same category as through the table itself. -/
theorem classifier_order_witness :
    classifyIn get_file_type_mappings.reverse "mp3" = classifyIn get_file_type_mappings "mp3" ∧
    classifyIn get_file_type_mappings "mp3" = some "Audio" :=
  ⟨classifier_order_independent.2 get_file_type_mappings.reverse
    (List.reverse_perm get_file_type_mappings).symm "mp3", by decide⟩

/-- C10: a file name beginning with a dot and containing no other dot has no
extension for the extractor, so the scan treats the file as extensionless and
leaves it in place. -/
theorem hidden_file_skipped (rest : List Char) (h : '.' ∉ rest) :
    get_extension (String.mk ('.' :: rest)) = none ∧
    ∀ (dd : DestDirs) (st : St) (d : FPath),
      processEntry dd st ⟨d ++ [String.mk ('.' :: rest)], false⟩ = (none, st) := by
  have hext : get_extension (String.mk ('.' :: rest)) = none := by
    unfold get_extension
    have hl : (String.mk ('.' :: rest)).toList = '.' :: rest := rfl
    rw [hl]
    unfold rustSplitExt
    rw [rustSplitExt_none_of_no_dot rest h]
    simp
  refine ⟨hext, ?_⟩
  intro dd st d
  unfold processEntry
  simp only [Bool.false_eq_true, if_false, path_ext_append]
  rw [hext]

/-- Witness for C10 at the name `.gitignore`. -/
theorem hidden_file_witness :
    String.mk ('.' :: "gitignore".toList) = ".gitignore" ∧
    get_extension (String.mk ('.' :: "gitignore".toList)) = none ∧
    processEntry sampleDD ⟨sampleFS, 0⟩
      ⟨["src"] ++ [String.mk ('.' :: "gitignore".toList)], false⟩ = (none, ⟨sampleFS, 0⟩) :=
  ⟨by decide,
   (hidden_file_skipped "gitignore".toList (by decide)).1,
   (hidden_file_skipped "gitignore".toList (by decide)).2 sampleDD ⟨sampleFS, 0⟩ ["src"]⟩

/-- C2: configuration resolution fails under each of the listed conditions
(file unreadable, unparsable, missing `directories` section, missing
`images` / `documents` / `audio` key, or a non-string value), and whenever
resolution fails the run stops with the filesystem untouched and zero files
moved, before any directory is scanned. -/
theorem config_failure_aborts_run (cs : ConfigSource) (w : World) :
    (configFails cs → (resolveConfig cs).failed) ∧
    ((resolveConfig w.configFile).failed →
      (organize_files w).1 ≠ RunOutcome.ok ∧ (organize_files w).2 = ⟨w.fs, 0⟩) :=
  ⟨fun h => resolveConfig_failed_of h, fun h => organize_aborts_of_resolve_failed w h⟩

/-- Witness for C2 on a config missing the `audio` key: resolution fails and
the run ends with the filesystem unchanged and zero files moved. -/
theorem config_failure_witness :
    configFails (ConfigSource.parsed missingAudioToml) ∧
    (resolveConfig missingAudioWorld.configFile).failed ∧
    (organize_files missingAudioWorld).1 ≠ RunOutcome.ok ∧
    (organize_files missingAudioWorld).2 = ⟨missingAudioWorld.fs, 0⟩ := by
  have hfails : configFails (ConfigSource.parsed missingAudioToml) := by
    right; right
    refine ⟨missingAudioToml, rfl, Or.inr ⟨.table [("images", .str "i"), ("documents", .str "d")], rfl, ?_⟩⟩
    right; right; left
    rfl
  have h1 := (config_failure_aborts_run (ConfigSource.parsed missingAudioToml) missingAudioWorld).1 hfails
  have h2 := (config_failure_aborts_run (ConfigSource.parsed missingAudioToml) missingAudioWorld).2 h1
  exact ⟨hfails, h1, h2.1, h2.2⟩

/-- C3 amended: a source path that does not exist at all fails with the
explicit NotFound error before any iteration, with zero files moved and exit
code 1; a source path that exists but is not a directory also aborts before
iteration with zero files moved and exit code 1, but with the
not-a-directory error coming from opening the directory, not NotFound. -/
theorem source_missing_aborts (w : World) (dd : DestDirs)
    (hres : resolveConfig w.configFile = Resolved.ok dd) :
    (¬ w.fs.pathExists w.sourceDir →
      organize_files w = (RunOutcome.err (RunErr.notFound w.sourceDir), ⟨w.fs, 0⟩) ∧
      mainRun w = ⟨["Error: " ++ (RunErr.notFound w.sourceDir).msg], 1⟩) ∧
    (w.fs.pathExists w.sourceDir → ¬ w.fs.isDir w.sourceDir →
      organize_files w = (RunOutcome.err (RunErr.notADirectory w.sourceDir), ⟨w.fs, 0⟩) ∧
      (mainRun w).exitCode = 1) := by
  rcases organize_outcome_cases w dd hres with
    ⟨hex, heq⟩ | ⟨hex, hdir, heq⟩ | ⟨hdir, r, st', hscan, heq⟩
  · constructor
    · intro _
      refine ⟨heq, ?_⟩
      unfold mainRun
      rw [heq]
    · intro hex2 _
      exact absurd hex2 hex
  · constructor
    · intro hnex
      exact absurd hex hnex
    · intro _ _
      refine ⟨heq, ?_⟩
      unfold mainRun
      rw [heq]
  · constructor
    · intro hnex
      exact absurd (Or.inr hdir) hnex
    · intro _ hndir
      exact absurd hdir hndir

/-- Counterexample to C3 as stated: a source path that exists as a regular
file is not a directory, yet the run does not fail with a NotFound error; it
fails with the not-a-directory error from opening the directory. -/
theorem source_file_counterexample :
    (¬ fileSrcWorld.fs.isDir fileSrcWorld.sourceDir) ∧
    (organize_files fileSrcWorld).1 ≠ RunOutcome.ok ∧
    (match (organize_files fileSrcWorld).1 with
      | RunOutcome.err (RunErr.notFound _) => true
      | _ => false) = false ∧
    (organize_files fileSrcWorld).1 = RunOutcome.err (RunErr.notADirectory ["s"]) ∧
    (organize_files fileSrcWorld).2.moved = 0 := by
  decide

/-- Witness for C3 amended: a missing source directory yields the NotFound
error, one `Error: ` line and exit code 1 with zero moves; a source path that
is a regular file yields the not-a-directory error with exit code 1. -/
theorem source_missing_witness :
    (organize_files noSrcWorld = (RunOutcome.err (RunErr.notFound ["s"]), ⟨noSrcWorld.fs, 0⟩) ∧
      mainRun noSrcWorld = ⟨["Error: " ++ (RunErr.notFound ["s"]).msg], 1⟩) ∧
    (organize_files fileSrcWorld =
        (RunOutcome.err (RunErr.notADirectory ["s"]), ⟨fileSrcWorld.fs, 0⟩) ∧
      (mainRun fileSrcWorld).exitCode = 1) :=
  ⟨(source_missing_aborts noSrcWorld tinyDD (by decide)).1 (by decide),
   (source_missing_aborts fileSrcWorld tinyDD (by decide)).2 (by decide) (by decide)⟩

/-- C1 amended: when `organize_files` returns an `Err` (config file
unreadable, source not found, directory open failure, or a move failure),
`main` prints exactly one line on the error stream prefixed `Error: ` and
exits with code 1, and a normal completion exits with code 0 and no error
output; but a run that fails inside config parsing or key extraction panics
instead, aborting with exit code 101 and panic output none of whose lines
carries the `Error: ` prefix. -/
theorem main_exit_behavior (w : World) :
    ((organize_files w).1 = RunOutcome.ok → mainRun w = ⟨[], 0⟩) ∧
    (∀ e, (organize_files w).1 = RunOutcome.err e →
      mainRun w = ⟨["Error: " ++ e.msg], 1⟩) ∧
    (∀ m, (organize_files w).1 = RunOutcome.panicked m →
      (mainRun w).exitCode = 101 ∧
      ∀ l ∈ (mainRun w).stderrLines, strStarts "Error: " l = false) := by
  unfold mainRun
  rcases ho : (organize_files w).1 with _ | e | m
  · refine ⟨fun _ => rfl, fun e he => ?_, fun m hm => ?_⟩
    · cases he
    · cases hm
  · refine ⟨fun hc => ?_, fun e' he => ?_, fun m hm => ?_⟩
    · cases hc
    · injection he with he
      subst he
      rfl
    · cases hm
  · refine ⟨fun hc => ?_, fun e' he => ?_, fun m' hm => ?_⟩
    · cases hc
    · cases he
    · injection hm with hm
      subst hm
      refine ⟨rfl, ?_⟩
      intro l hl
      rcases List.mem_cons.mp hl with rfl | hl2
      · rfl
      · rcases List.mem_cons.mp hl2 with rfl | hl3
        · rfl
        · cases hl3

/-- Counterexample to C1 as stated: a run whose config file fails to parse is
a failing run of the ConfigError kind, yet the process panics: the exit code
is 101, not 1, and no error-stream line carries the `Error: ` prefix. -/
theorem main_exit_counterexample :
    configFails ConfigSource.unparsable ∧
    (organize_files unparsableWorld).1 =
      RunOutcome.panicked "Failed to parse the config file" ∧
    (mainRun unparsableWorld).exitCode = 101 ∧
    ((mainRun unparsableWorld).stderrLines.any (fun l => strStarts "Error: " l)) = false := by
  refine ⟨Or.inr (Or.inl rfl), by decide, by decide, by decide⟩

/-- Witness for C1 amended at the three outcome kinds: a clean run exits 0
with no error output, a missing source directory prints one `Error: ` line
and exits 1, and a parse failure aborts with exit code 101. -/
theorem main_exit_witness :
    mainRun tinyWorld = ⟨[], 0⟩ ∧
    mainRun noSrcWorld = ⟨["Error: " ++ (RunErr.notFound ["s"]).msg], 1⟩ ∧
    (mainRun unparsableWorld).exitCode = 101 :=
  ⟨(main_exit_behavior tinyWorld).1 (by decide),
   (main_exit_behavior noSrcWorld).2.1 (RunErr.notFound ["s"]) (by decide),
   ((main_exit_behavior unparsableWorld).2.2 "Failed to parse the config file" (by decide)).1⟩

/-- C5: a file whose name has no extension, or whose lowercased extension
matches no category, is never moved and raises no error: processing its entry
leaves the state untouched, and after the whole run the file is still at its
original path. -/
theorem unmatched_file_untouched (w : World) (name : String)
    (hskip : skipName name = true)
    (hfile : w.fs.isFile (w.sourceDir ++ [name])) :
    (∀ (dd : DestDirs) (st : St),
      processEntry dd st ⟨w.sourceDir ++ [name], false⟩ = (none, st)) ∧
    (organize_files w).2.fs.isFile (w.sourceDir ++ [name]) := by
  refine ⟨fun dd st => processEntry_skipName dd st w.sourceDir name hskip, ?_⟩
  refine organize_fs_inv w (fun fs => fs.isFile (w.sourceDir ++ [name])) ?_ hfile
  intro dd hres e he st r st' hP hstep
  by_cases hne : w.sourceDir ++ [name] = e.path
  · have hskipE : processEntry dd st e = (none, st) := by
      rcases childrenOf_shape he with ⟨n, hn⟩
      rcases e with ⟨p, b⟩
      simp only at hn hne
      subst hn
      rcases append_singleton_inj hne with ⟨_, hname⟩
      subst hname
      match b with
      | true => exact processEntry_skip_dir dd st _
      | false => exact processEntry_skipName dd st w.sourceDir name hskip
    rw [hskipE] at hstep
    injection hstep with _ h2
    rw [← h2]
    exact hP
  · exact processEntry_isFile_pres dd st e r st' _ hstep hP hne

/-- Witness for C5: after the sample run, `archive.zip` (unmatched extension)
is still in the source directory and its entry is processed as a no-op; the
same holds for the extensionless `README`. -/
theorem unmatched_file_witness :
    (organize_files sampleWorld).2.fs.isFile (["src"] ++ ["archive.zip"]) ∧
    processEntry sampleDD ⟨sampleFS, 0⟩ ⟨["src"] ++ ["archive.zip"], false⟩ =
      (none, ⟨sampleFS, 0⟩) ∧
    (organize_files sampleWorld).2.fs.isFile (["src"] ++ ["README"]) :=
  ⟨(unmatched_file_untouched sampleWorld "archive.zip" (by decide) (by decide)).2,
   (unmatched_file_untouched sampleWorld "archive.zip" (by decide) (by decide)).1
     sampleDD ⟨sampleFS, 0⟩,
   (unmatched_file_untouched sampleWorld "README" (by decide) (by decide)).2⟩

/-- C6: an entry directly inside the source directory that is itself a
directory is never moved and never descended into, whatever its name: its
processing leaves the state untouched, it is still a directory after the run,
and every file strictly inside it is still there after the run. -/
theorem directory_entries_untouched (w : World) (name : String)
    (hdir : w.fs.isDir (w.sourceDir ++ [name])) :
    (∀ (dd : DestDirs) (st : St),
      processEntry dd st ⟨w.sourceDir ++ [name], true⟩ = (none, st)) ∧
    (organize_files w).2.fs.isDir (w.sourceDir ++ [name]) ∧
    (∀ rest : FPath, rest ≠ [] →
      w.fs.isFile ((w.sourceDir ++ [name]) ++ rest) →
      (organize_files w).2.fs.isFile ((w.sourceDir ++ [name]) ++ rest)) := by
  refine ⟨fun dd st => processEntry_skip_dir dd st _, ?_, ?_⟩
  · refine organize_fs_inv w (fun fs => fs.isDir (w.sourceDir ++ [name])) ?_ hdir
    intro dd hres e he st r st' hP hstep
    exact processEntry_isDir_pres dd st e r st' _ hstep hP
  · intro rest hrest hfile
    refine organize_fs_inv w
      (fun fs => fs.isFile ((w.sourceDir ++ [name]) ++ rest)) ?_ hfile
    intro dd hres e he st r st' hP hstep
    refine processEntry_isFile_pres dd st e r st' _ hstep hP ?_
    rcases childrenOf_shape he with ⟨n, hn⟩
    rw [hn]
    intro hq
    have hlen := congrArg List.length hq
    have hpos : 0 < rest.length := List.length_pos.mpr hrest
    simp only [List.length_append, List.length_cons, List.length_nil] at hlen
    omega

/-- Witness for C6: after the sample run the directory `sub.jpg` (an
extension-like name) is still a directory in the source, its inner file is
untouched, and its entry is processed as a no-op. -/
theorem directory_entries_witness :
    (organize_files sampleWorld).2.fs.isDir (["src"] ++ ["sub.jpg"]) ∧
    (organize_files sampleWorld).2.fs.isFile ((["src"] ++ ["sub.jpg"]) ++ ["inner.png"]) ∧
    processEntry sampleDD ⟨sampleFS, 0⟩ ⟨["src"] ++ ["sub.jpg"], true⟩ = (none, ⟨sampleFS, 0⟩) :=
  ⟨(directory_entries_untouched sampleWorld "sub.jpg" (by decide)).2.1,
   (directory_entries_untouched sampleWorld "sub.jpg" (by decide)).2.2
     ["inner.png"] (by decide) (by decide),
   (directory_entries_untouched sampleWorld "sub.jpg" (by decide)).1 sampleDD ⟨sampleFS, 0⟩⟩

/-- C4 amended: after a successful run, a regular file of the source
directory whose lowercased extension belongs to exactly one category's set
exists at that category's destination directory joined with the original
filename (case preserved) and no longer exists at its original path, provided
the category's configured destination directory differs from the source
directory (when they coincide, the file is renamed onto itself and remains at
its original path). -/
theorem matched_file_moved (w : World) (dd : DestDirs) (name ext cat : String)
    (exts : List String) (destDir : FPath)
    (hres : resolveConfig w.configFile = Resolved.ok dd)
    (hok : (organize_files w).1 = RunOutcome.ok)
    (hfile : w.fs.isFile (w.sourceDir ++ [name]))
    (hext : get_extension name = some ext)
    (hmem : (exts, cat) ∈ get_file_type_mappings)
    (hin : ext ∈ exts)
    (hdest : destOf dd cat = some destDir)
    (hne : destDir ≠ w.sourceDir) :
    (organize_files w).2.fs.isFile (destDir ++ [name]) ∧
    ¬ (organize_files w).2.fs.isFile (w.sourceDir ++ [name]) := by
  obtain ⟨hdir, hscan⟩ := organize_ok_destruct w dd hres hok
  have hchild : (⟨w.sourceDir ++ [name], false⟩ : Entry) ∈ childrenOf w.fs w.sourceDir :=
    mem_childrenOf_isFile hfile
  obtain ⟨l1, l2, hsplit⟩ := List.append_of_mem hchild
  rw [hsplit] at hscan
  obtain ⟨stm, hscan1, hscan2⟩ :=
    runScan_append_ok dd l1 (⟨w.sourceDir ++ [name], false⟩ :: l2) ⟨w.fs, 0⟩ _ hscan
  rcases hp : processEntry dd stm ⟨w.sourceDir ++ [name], false⟩ with ⟨rp, stp⟩
  unfold runScan at hscan2
  rw [hp] at hscan2
  match rp with
  | some er =>
    simp only at hscan2
    injection hscan2 with hbad
    cases hbad
  | none =>
    simp only at hscan2
    have hmv : move_file stm (w.sourceDir ++ [name]) destDir = (none, stp) := by
      unfold processEntry at hp
      simp only [Bool.false_eq_true, if_false, path_ext_append] at hp
      rw [hext] at hp
      simp only at hp
      rw [classify_of_mem hmem hin] at hp
      simp only at hp
      rw [hdest] at hp
      exact hp
    have hpne : w.sourceDir ++ [name] ≠ destDir ++ [name] := by
      intro hq
      rcases append_singleton_inj hq with ⟨hd, _⟩
      exact hne hd.symm
    have hstart : stp.fs.isFile (destDir ++ [name]) ∧
        ¬ stp.fs.isFile (w.sourceDir ++ [name]) := by
      rcases move_file_cases stm (w.sourceDir ++ [name]) destDir none stp hmv with
        ⟨_, _, hbad | ⟨e, hbad⟩⟩ | ⟨_, hsrc, n', hn', hfs, _⟩
      · rw [List.getLast?_concat] at hbad
        cases hbad
      · cases hbad
      · rw [List.getLast?_concat] at hn'
        injection hn' with hn'
        subst hn'
        constructor
        · rw [hfs, isFile_insertFile]
          exact Or.inl rfl
        · rw [hfs, isFile_insertFile]
          rintro (hq | ⟨hq, _⟩)
          · exact hpne hq
          · rw [isFile_removeFile] at hq
            exact hq.2 rfl
    have hstep : ∀ e ∈ l2, ∀ st r st',
        (st.fs.isFile (destDir ++ [name]) ∧ ¬ st.fs.isFile (w.sourceDir ++ [name])) →
        processEntry dd st e = (r, st') →
        (st'.fs.isFile (destDir ++ [name]) ∧ ¬ st'.fs.isFile (w.sourceDir ++ [name])) := by
      intro e he st r st' hP hpe
      have hech : e ∈ childrenOf w.fs w.sourceDir := by
        rw [hsplit]
        exact List.mem_append_right l1 (List.mem_cons_of_mem _ he)
      rcases childrenOf_shape hech with ⟨n', hn'⟩
      constructor
      · refine processEntry_isFile_pres dd st e r st' _ hpe hP.1 ?_
        rw [hn']
        intro hq
        rcases append_singleton_inj hq with ⟨hd, _⟩
        exact hne hd
      · intro hq
        rcases processEntry_new_file dd st e r st' _ hpe hq with hold | ⟨hsrc, ddir, k, _, hk, hqeq⟩
        · exact hP.2 hold
        · rcases append_singleton_inj hqeq with ⟨hsd, hmk⟩
          rw [hn', List.getLast?_concat] at hk
          injection hk with hk
          rw [hn', hk, ← hmk] at hsrc
          exact hP.2 hsrc
    exact runScan_inv dd l2
      (fun st => st.fs.isFile (destDir ++ [name]) ∧ ¬ st.fs.isFile (w.sourceDir ++ [name]))
      hstep stp none (organize_files w).2 hscan2 hstart

/-- Witness for C4 amended: in the sample run, `photo.JPG` (lowercased
extension `jpg`, Images) ends up under `out/Images` with its original
casing and is gone from the source directory. -/
theorem matched_file_witness :
    (organize_files sampleWorld).2.fs.isFile (["out", "Images"] ++ ["photo.JPG"]) ∧
    ¬ (organize_files sampleWorld).2.fs.isFile (["src"] ++ ["photo.JPG"]) :=
  matched_file_moved sampleWorld sampleDD "photo.JPG" "jpg" "Images"
    ["jpg", "jpeg", "png", "gif", "bmp", "tiff", "webp"] ["out", "Images"]
    (by decide) (by decide) (by decide) (by decide) (by decide) (by decide)
    (by decide) (by decide)

/-- Counterexample to C4 as stated: when the configured Images directory is
the source directory itself, the run succeeds, `photo.jpg` has a matched
extension, file and destination satisfy the claim's premises, yet the file
still exists at its original path after the run. -/
theorem matched_file_counterexample :
    resolveConfig selfWorld.configFile = Resolved.ok ⟨["src"], ["d"], ["au"]⟩ ∧
    (organize_files selfWorld).1 = RunOutcome.ok ∧
    selfWorld.fs.isFile (["src"] ++ ["photo.jpg"]) ∧
    get_extension "photo.jpg" = some "jpg" ∧
    destOf ⟨["src"], ["d"], ["au"]⟩ "Images" = some ["src"] ∧
    (organize_files selfWorld).2.fs.isFile (["src"] ++ ["photo.jpg"]) := by
  decide

/-- After a successful scan over entries of the source directory, every
regular file directly inside the source directory has a name the scan skips,
provided no destination directory is the source directory itself. -/
theorem scan_leaves_skips (dd : DestDirs) (srcD : FPath)
    (h1 : dd.images ≠ srcD) (h2 : dd.documents ≠ srcD) (h3 : dd.audio ≠ srcD) :
    ∀ (es : List Entry) (st stF : St),
      runScan dd es st = (none, stF) →
      (∀ e ∈ es, ∃ n, e.path = srcD ++ [n]) →
      (∀ n, st.fs.isFile (srcD ++ [n]) →
        skipName n = true ∨ (⟨srcD ++ [n], false⟩ : Entry) ∈ es) →
      ∀ n, stF.fs.isFile (srcD ++ [n]) → skipName n = true := by
  intro es
  induction es with
  | nil =>
    intro st stF hscan hshape hinv n hf
    unfold runScan at hscan
    injection hscan with _ hst
    rw [← hst] at hf
    rcases hinv n hf with hskip | hmem
    · exact hskip
    · cases hmem
  | cons e es ih =>
    intro st stF hscan hshape hinv n hf
    rcases hp : processEntry dd st e with ⟨rp, stp⟩
    unfold runScan at hscan
    rw [hp] at hscan
    match rp with
    | some er =>
      simp only at hscan
      injection hscan with hbad
      cases hbad
    | none =>
      simp only at hscan
      refine ih stp stF hscan (fun e' he' => hshape e' (List.mem_cons_of_mem e he')) ?_ n hf
      intro m hm
      rcases processEntry_new_file dd st e none stp (srcD ++ [m]) hp hm with
        hold | ⟨hsrc, ddir, k, hddir, hk, hqeq⟩
      · rcases hinv m hold with hskip | hmem2
        · exact Or.inl hskip
        · rcases List.mem_cons.mp hmem2 with heq | hmem3
          · refine Or.inl (processEntry_none_isFile_self dd st srcD m stp h1 h2 h3 ?_ hm).1
            rw [heq]
            exact hp
          · exact Or.inr hmem3
      · exfalso
        rcases append_singleton_inj hqeq with ⟨hsd, _⟩
        rcases hddir with rfl | rfl | rfl
        · exact h1 hsd.symm
        · exact h2 hsd.symm
        · exact h3 hsd.symm

/-- C7: running the organizer a second time with the same arguments on the
state a successful run left behind (no files added in between) is a no-op:
the second run succeeds, moves zero files, and leaves the filesystem exactly
as it was. The side conditions say the three destination directories differ
from the source directory, which is what makes the first run leave the
source directory organized. -/
theorem second_run_noop (w : World) (dd : DestDirs) (st1 : St)
    (hres : resolveConfig w.configFile = Resolved.ok dd)
    (h1 : dd.images ≠ w.sourceDir) (h2 : dd.documents ≠ w.sourceDir)
    (h3 : dd.audio ≠ w.sourceDir)
    (hrun : organize_files w = (RunOutcome.ok, st1)) :
    organize_files ⟨w.configFile, w.sourceDir, st1.fs⟩ = (RunOutcome.ok, ⟨st1.fs, 0⟩) := by
  have hok : (organize_files w).1 = RunOutcome.ok := by rw [hrun]
  obtain ⟨hdir, hscan⟩ := organize_ok_destruct w dd hres hok
  rw [hrun] at hscan
  have hdir1 : st1.fs.isDir w.sourceDir := by
    have := runScan_inv dd (childrenOf w.fs w.sourceDir)
      (fun st => st.fs.isDir w.sourceDir)
      (fun e he st r st' hP hpe => processEntry_isDir_pres dd st e r st' _ hpe hP)
      ⟨w.fs, 0⟩ none st1 hscan hdir
    exact this
  have hskipAll : ∀ n, st1.fs.isFile (w.sourceDir ++ [n]) → skipName n = true := by
    refine scan_leaves_skips dd w.sourceDir h1 h2 h3
      (childrenOf w.fs w.sourceDir) ⟨w.fs, 0⟩ st1 hscan
      (fun e he => childrenOf_shape he) ?_
    intro n hf
    exact Or.inr (mem_childrenOf_isFile hf)
  have hallskip : ∀ e ∈ childrenOf st1.fs w.sourceDir, ∀ st : St,
      processEntry dd st e = (none, st) := by
    intro e he st
    rcases childrenOf_shape he with ⟨n, hn⟩
    rcases e with ⟨p, b⟩
    simp only at hn
    subst hn
    match b with
    | true => exact processEntry_skip_dir dd st _
    | false =>
      have hfile : st1.fs.isFile (w.sourceDir ++ [n]) := (mem_childrenOf.mp he).1
      exact processEntry_skipName dd st w.sourceDir n (hskipAll n hfile)
  exact organize_of_scan ⟨w.configFile, w.sourceDir, st1.fs⟩ dd ⟨st1.fs, 0⟩ hres hdir1
    (runScan_skips dd (childrenOf st1.fs w.sourceDir) hallskip ⟨st1.fs, 0⟩)

/-- Witness for C7: running the organizer on the state the tiny run left
behind succeeds, moves zero files and leaves the filesystem unchanged. -/
theorem second_run_witness :
    organize_files ⟨tinyWorld.configFile, ["s"],
        [(["au", "a.mp3"], false), (["au"], true), (["s"], true)]⟩ =
      (RunOutcome.ok, ⟨[(["au", "a.mp3"], false), (["au"], true), (["s"], true)], 0⟩) :=
  second_run_noop tinyWorld tinyDD
    ⟨[(["au", "a.mp3"], false), (["au"], true), (["s"], true)], 1⟩
    (by decide) (by decide) (by decide) (by decide) (by decide)
